import Mathlib

/-!
Verification development for the `django-tink-fields` repository.

The development shallow-embeds the keyset store and primitive multiplexer of
`src/tink_fields/models.py` and the encrypted field layer of
`src/tink_fields/fields.py`.  Byte strings are modelled as lists of naturals,
database tables as lists of rows, and the process-local primitive cache
(`_DatabasePrimitiveKeyset._primitives`, a Python dict from routing identifier
to a list of entries) as an association list.  The cryptographic primitives
and the tink library helpers are external collaborators of the repository;
where one of their behaviours decides a property it is modelled from the
specification's interface description and marked as such in its doc comment.
-/

/-- Byte strings (`bytes` in Python) as lists of naturals. -/
abbrev Bytes := List Nat

/-- `tink_pb2.KeyStatusType`: lifecycle status of a key
(`UNKNOWN_STATUS = 0, ENABLED = 1, DISABLED = 2, DESTROYED = 3`). -/
inductive KeyStatus where
  | unknownStatus
  | enabled
  | disabled
  | destroyed
deriving DecidableEq, Repr

/-- `tink_pb2.OutputPrefixType`
(`UNKNOWN_PREFIX = 0, TINK = 1, LEGACY = 2, RAW = 3, CRUNCHY = 4`). -/
inductive OutputPrefixType where
  | unknownPrefixKind
  | tink
  | legacy
  | raw
  | crunchy
deriving DecidableEq, Repr

/-- Big-endian 4-byte encoding (`struct.pack` with format char L, as used by
tink's `crypto_format`). -/
def bigEndian32 (n : Nat) : Bytes :=
  [n / 2 ^ 24 % 256, n / 2 ^ 16 % 256, n / 2 ^ 8 % 256, n % 256]

/-- `tink.core.crypto_format.output_prefix`, an external collaborator of the
repository: the routing identifier derived from a key's prefix kind and key
id.  TINK prefixes start with byte 1, LEGACY and CRUNCHY with byte 0, RAW
keys have the empty identifier; an unknown prefix kind raises (`none`). -/
def cryptoFormatOutputPrefix (kind : OutputPrefixType) (keyId : Nat) : Option Bytes :=
  match kind with
  | .tink => some (1 :: bigEndian32 keyId)
  | .legacy => some (0 :: bigEndian32 keyId)
  | .crunchy => some (0 :: bigEndian32 keyId)
  | .raw => some []
  | .unknownPrefixKind => none

/-- A persisted `Key` row (`tink_fields.models.Key`).  `keyData` is the
serialized key material, `outputPrefix` the persisted routing identifier. -/
structure Key where
  id : Nat
  keysetId : Nat
  typeUrl : String
  keyData : Bytes
  status : KeyStatus
  outputPrefixType : OutputPrefixType
  outputPrefix : Bytes
deriving DecidableEq, Repr

/-- A persisted `Keyset` row.  `primaryKeyId` models the nullable
`primary_key` foreign-key column. -/
structure KeysetRow where
  id : Nat
  name : String
  primaryKeyId : Option Nat
deriving DecidableEq, Repr

/-- The relational store: the `Keyset` and `Key` tables plus autoincrement
counters for their integer primary keys. -/
structure DB where
  keysets : List KeysetRow
  keys : List Key
  nextKeysetId : Nat
  nextKeyId : Nat
deriving DecidableEq, Repr

def DB.empty : DB := ⟨[], [], 1, 1⟩

/-- The in-memory Django model instance of a `Keyset` as far as the embedded
operations read it: its row id, name and the in-memory `primary_key_id`
attribute.  Assigning `instance.primary_key` updates only this attribute; the
persisted row changes only on `save`. -/
structure KeysetInstance where
  rowId : Nat
  name : String
  primaryKeyId : Option Nat
deriving DecidableEq, Repr

/-- A key template (`tink_pb2.KeyTemplate`) as far as the model reads it:
the algorithm type url and the output prefix kind.  The fresh key material
produced by `Registry.new_key_data` is external entropy and is passed in
explicitly where a template is consumed. -/
structure KeyTemplate where
  typeUrl : String
  outputPrefixType : OutputPrefixType
deriving DecidableEq, Repr

/-- `Key.create_from_keydata` (models.py lines 230-250): inside one
transaction, insert the key with `ENABLED` status, read back the generated
id, derive and persist the routing identifier.  Only the committed state is
modelled; a `crypto_format` failure rolls the transaction back (`none`). -/
def Key.createFromKeydata (db : DB) (keysetId : Nat) (typeUrl : String)
    (keyData : Bytes) (kind : OutputPrefixType) : Option (Key × DB) :=
  let kid := db.nextKeyId
  match cryptoFormatOutputPrefix kind kid with
  | none => none
  | some pfx =>
      let key : Key := ⟨kid, keysetId, typeUrl, keyData, .enabled, kind, pfx⟩
      some (key, { db with keys := db.keys ++ [key], nextKeyId := kid + 1 })

/-- `Keyset.generate_key` (models.py lines 33-38): key material
(`Registry.new_key_data`, external entropy) is passed in as `newKeyData`. -/
def Keyset.generateKey (db : DB) (ksRowId : Nat) (tpl : KeyTemplate)
    (newKeyData : Bytes) : Option (Key × DB) :=
  Key.createFromKeydata db ksRowId tpl.typeUrl newKeyData tpl.outputPrefixType

/-- `Keyset.create` (models.py lines 23-31): inside one transaction, save the
keyset row (with a NULL `primary_key_id`, since `primary_key` is unset at
that point), generate the initial key, then assign `instance.primary_key`.
The assignment updates only the in-memory instance attribute; the row saved
earlier is not saved again, so the persisted `primary_key_id` stays NULL.
The unique constraint on `name` makes a duplicate insert fail (`none`). -/
def Keyset.create (db : DB) (name : String) (tpl : KeyTemplate)
    (newKeyData : Bytes) : Option (KeysetInstance × DB) :=
  if db.keysets.any (fun r => r.name == name) then none
  else
    let rowId := db.nextKeysetId
    let db1 : DB := { db with keysets := db.keysets ++ [⟨rowId, name, none⟩],
                              nextKeysetId := rowId + 1 }
    match Keyset.generateKey db1 rowId tpl newKeyData with
    | none => none
    | some (key, db2) => some (⟨rowId, name, some key.id⟩, db2)

/-- `Keyset.set_primary_key` (models.py lines 40-46): set the instance's
`primary_key_id` to the given key id (a `Key` argument reduces to its pk)
and persist it with `save(update_fields=["primary_key"])`.  The source
checks neither the key's status nor its membership in the keyset. -/
def Keyset.setPrimaryKey (db : DB) (ks : KeysetInstance) (keyId : Nat) :
    KeysetInstance × DB :=
  ({ ks with primaryKeyId := some keyId },
   { db with keysets := db.keysets.map (fun r =>
       if r.id = ks.rowId then { r with primaryKeyId := some keyId } else r) })

/-- Fetching a `Key` row by primary key from storage (the Django related-object
access `keyset.primary_key` resolves the instance's `primary_key_id` this
way). -/
def fetchKey (db : DB) (keyId : Nat) : Option Key :=
  db.keys.find? (fun k => k.id == keyId)

/-- The primary key id the persisted `Keyset` row currently records — what a
fresh read of the keyset row from storage would report. -/
def persistedPrimaryId (db : DB) (ksRowId : Nat) : Option Nat :=
  (db.keysets.find? (fun r => r.id == ksRowId)).bind (fun r => r.primaryKeyId)

/-- How many `Key` rows belonging to the keyset the persisted keyset row
references as primary. -/
def persistedPrimaryCount (db : DB) (ksRowId : Nat) : Nat :=
  (db.keys.filter (fun k =>
    k.keysetId == ksRowId && persistedPrimaryId db ksRowId == some k.id)).length

/-- A `tink.core._primitive_set.Entry`, the runtime projection of a key held
by the index: the instantiated primitive handle is determined by the key
material, so the entry carries the material itself next to the routing
identifier, status, prefix kind and key id. -/
structure Entry where
  keyId : Nat
  identifier : Bytes
  status : KeyStatus
  outputPrefixType : OutputPrefixType
  keyData : Bytes
deriving DecidableEq, Repr

/-- `Key.entry` (models.py lines 208-216). -/
def Key.entry (k : Key) : Entry :=
  ⟨k.id, k.outputPrefix, k.status, k.outputPrefixType, k.keyData⟩

/-- The index's internal state `self._primitives`: a Python dict from routing
identifier to the list of entries sharing it, embedded as an association
list with unique keys in insertion order. -/
abbrev Cache := List (Bytes × List Entry)

/-- `self._primitives.get(identifier, [])` (and `self._primitives[identifier]`
under a containment guard). -/
def cacheGet : Cache → Bytes → List Entry
  | [], _ => []
  | q :: c, p => if q.1 = p then q.2 else cacheGet c p

/-- `identifier in self._primitives`. -/
def cacheContains : Cache → Bytes → Bool
  | [], _ => false
  | q :: c, p => q.1 == p || cacheContains c p

/-- `self._primitives.setdefault(identifier, []).append(entry)`. -/
def cacheAppend : Cache → Bytes → Entry → Cache
  | [], p, e => [(p, [e])]
  | q :: c, p, e =>
      if q.1 = p then (q.1, q.2 ++ [e]) :: c else q :: cacheAppend c p e

/-- `_DatabasePrimitiveKeyset._all_cached_key_ids` (models.py lines 120-126):
the key ids of every cached entry (a Python set; only membership is used). -/
def allCachedKeyIds : Cache → List Nat
  | [] => []
  | q :: c => q.2.map (fun e => e.keyId) ++ allCachedKeyIds c

/-- `_DatabasePrimitiveKeyset._entry_by_id` (models.py lines 97-109): fast
path when a non-empty identifier is cached with exactly one candidate,
otherwise a linear scan of the identifier's candidates by key id. -/
def entryById (c : Cache) (identifier : Bytes) (keyId : Nat) : Option Entry :=
  if identifier.length > 0 && cacheContains c identifier &&
      (cacheGet c identifier).length == 1 then
    (cacheGet c identifier).head?
  else
    (cacheGet c identifier).find? (fun e => e.keyId == keyId)

/-- `_DatabasePrimitiveKeyset._add_key_to_cache` (models.py lines 111-114). -/
def addKeyToCache (c : Cache) (k : Key) : Cache :=
  if (entryById c k.outputPrefix k.id).isSome then c
  else cacheAppend c k.outputPrefix k.entry

/-- Failure raised by the lookup when no key matches a routing identifier. -/
inductive TinkError where
  | keyNotFound
deriving DecidableEq, Repr

/-- Modelled from the spec: `tink.core.PrimitiveSet.primitive_from_identifier`
(the external superclass call in models.py lines 86 and 95) serves the cached
candidate entries for the identifier and "fails with KeyNotFoundError if no
candidate exists" — the trigger for an authentication/decryption failure
upstream. -/
def superPrimitiveFromIdentifier (c : Cache) (identifier : Bytes) :
    Except TinkError (List Entry) :=
  match cacheGet c identifier with
  | [] => .error .keyNotFound
  | es => .ok es

/-- Modelled from the spec: `tink.core.PrimitiveSet.all` (the external
superclass call in models.py line 134) returns every cached candidate list
(`list(self._primitives.values())`). -/
def superAll (c : Cache) : List (List Entry) :=
  c.map (fun q => q.2)

/-- `_DatabasePrimitiveKeyset.primitive_from_identifier` (models.py lines
83-95): fast path for a non-empty cached identifier; otherwise query storage
for the keyset's keys with that persisted routing identifier, excluding the
key ids already cached, insert them, and retry the lookup. -/
def primitiveFromIdentifier (c : Cache) (db : DB) (ksRowId : Nat)
    (identifier : Bytes) : Except TinkError (List Entry) × Cache :=
  if identifier.length > 0 && cacheContains c identifier then
    (superPrimitiveFromIdentifier c identifier, c)
  else
    let fresh := db.keys.filter (fun k =>
      k.keysetId == ksRowId && k.outputPrefix == identifier &&
        !((allCachedKeyIds c).contains k.id))
    let c2 := fresh.foldl addKeyToCache c
    (superPrimitiveFromIdentifier c2 identifier, c2)

/-- `_DatabasePrimitiveKeyset.all` (models.py lines 128-134): index every key
of the keyset whose id is not already cached (the storage query has no
status filter), then return every cached candidate list. -/
def allEntries (c : Cache) (db : DB) (ksRowId : Nat) :
    List (List Entry) × Cache :=
  let fresh := db.keys.filter (fun k =>
    k.keysetId == ksRowId && !((allCachedKeyIds c).contains k.id))
  let c2 := fresh.foldl addKeyToCache c
  (superAll c2, c2)

/-- `_DatabasePrimitiveKeyset.primary` (models.py lines 149-156).
`self._keyset.primary_key` resolves the related `Key` row from the keyset
instance's in-memory `primary_key_id` attribute (Django does not re-read the
`Keyset` row itself); a NULL attribute fails (`none`).  The key is served
from the cache when indexed, otherwise indexed and returned. -/
def primaryEntry (c : Cache) (db : DB) (ks : KeysetInstance) :
    Option (Entry × Cache) :=
  match ks.primaryKeyId.bind (fetchKey db) with
  | none => none
  | some key =>
      match entryById c key.outputPrefix key.id with
      | some e => some (e, c)
      | none => some (key.entry, addKeyToCache c key)

/-- An AEAD primitive, an external capability consumed by the field layer:
`encrypt(plaintext, aad)` and `decrypt(ciphertext, aad)` (decryption failure
is `none`). -/
structure Aead where
  encrypt : Bytes → Bytes → Bytes
  decrypt : Bytes → Bytes → Option Bytes

/-- A deterministic AEAD primitive (the raw, per-key capability):
`encrypt_deterministically` and `decrypt_deterministically`. -/
structure DeterministicAead where
  encryptDet : Bytes → Bytes → Bytes
  decryptDet : Bytes → Bytes → Option Bytes

/-- The host field machinery around an encrypted field, an external
collaborator: `superPrep` is the underlying Django field's
`get_db_prep_save`/`get_prep_value` composed with `force_bytes` (`none` for a
NULL value or prepared NULL), and `toPython` is `to_python` composed with the
field's `_to_python_prepare` (a conversion failure is `none`). -/
structure FieldCodec (α : Type) where
  superPrep : α → Option Bytes
  toPython : Bytes → Option α

/-- `EncryptedField.get_db_prep_save` (fields.py lines 321-336): prepare the
value through the parent field, then encrypt the prepared bytes with the
keyset manager's AEAD primitive under the field's associated data; a NULL
prepared value is passed through unencrypted as NULL. -/
def EncryptedField.getDbPrepSave {α : Type} (fc : FieldCodec α) (a : Aead)
    (aad : Bytes) (value : Option α) : Option Bytes :=
  match value.bind fc.superPrep with
  | some v => some (a.encrypt v aad)
  | none => none

/-- `EncryptedField.from_db_value` (fields.py lines 338-359): a non-NULL
database value is decrypted and converted back through `to_python`; NULL is
returned as NULL without invoking decryption. -/
def EncryptedField.fromDbValue {α : Type} (fc : FieldCodec α) (a : Aead)
    (aad : Bytes) (value : Option Bytes) : Option α :=
  match value with
  | some cipher => (a.decrypt cipher aad).bind fc.toPython
  | none => none

/-- One key of a file-based tink keyset handle as the deterministic field
layer consumes it: key id, prefix kind, status and its raw deterministic
primitive. -/
structure DetKey where
  keyId : Nat
  outputPrefixType : OutputPrefixType
  status : KeyStatus
  raw : DeterministicAead

/-- The routing identifier of a handle key (empty for RAW or unknown prefix
kinds). -/
def DetKey.identifier (k : DetKey) : Bytes :=
  (cryptoFormatOutputPrefix k.outputPrefixType k.keyId).getD []

/-- A tink keyset handle as read from the configured keyset file: its keys
and the id of the current primary key. -/
structure DetKeysetHandle where
  keys : List DetKey
  primaryId : Nat

def DetKeysetHandle.primaryKey (h : DetKeysetHandle) : Option DetKey :=
  h.keys.find? (fun k => k.keyId == h.primaryId)

/-- Modelled from the spec: the wrapped `DeterministicAead` obtained from a
keyset handle (`KeysetManager.daead_primitive`) encrypts with the current
primary key only, prepending that key's routing identifier to the raw
deterministic ciphertext (`none` when the handle has no primary key). -/
def DetKeysetHandle.encryptDet (h : DetKeysetHandle) (m aad : Bytes) :
    Option Bytes :=
  h.primaryKey.map (fun k => k.identifier ++ k.raw.encryptDet m aad)

/-- Modelled from the spec: wrapped deterministic decryption routes the
ciphertext by its identifier prefix — prefixed keys whose routing identifier
heads the ciphertext are tried first, then RAW keys against the whole
ciphertext. -/
def DetKeysetHandle.decryptDet (h : DetKeysetHandle) (cipher aad : Bytes) :
    Option Bytes :=
  let tryKey : DetKey → Option Bytes := fun k =>
    if k.identifier.isPrefixOf cipher then
      k.raw.decryptDet (cipher.drop k.identifier.length) aad
    else none
  let prefixed := (h.keys.filter (fun k => !k.identifier.isEmpty)).filterMap tryKey
  let rawKeys := (h.keys.filter (fun k => k.identifier.isEmpty)).filterMap tryKey
  (prefixed ++ rawKeys).head?

/-- `DeterministicEncryptedField.get_db_prep_save` (fields.py lines 612-630):
prepare through the grandparent field, then deterministically encrypt with
the keyset manager's wrapped deterministic primitive. -/
def DeterministicEncryptedField.getDbPrepSave {α : Type} (fc : FieldCodec α)
    (h : DetKeysetHandle) (aad : Bytes) (value : Option α) : Option Bytes :=
  match value.bind fc.superPrep with
  | some v => h.encryptDet v aad
  | none => none

/-- `DeterministicEncryptedField.from_db_value` (fields.py lines 632-655). -/
def DeterministicEncryptedField.fromDbValue {α : Type} (fc : FieldCodec α)
    (h : DetKeysetHandle) (aad : Bytes) (value : Option Bytes) : Option α :=
  match value with
  | some cipher => (h.decryptDet cipher aad).bind fc.toPython
  | none => none

/-- The `exact` branch of the lookup installed by
`_create_deterministic_lookup_class` (fields.py lines 426-447): a NULL
right-hand side or a NULL prepared value passes through as NULL; otherwise
the prepared value is deterministically encrypted once with the field's
wrapped deterministic primitive and that single ciphertext is the comparison
value. -/
def deterministicExactPrepLookup {α : Type} (fc : FieldCodec α)
    (h : DetKeysetHandle) (aad : Bytes) (rhs : Option α) : Option Bytes :=
  match rhs.bind fc.superPrep with
  | none => none
  | some v => h.encryptDet v aad

/-- One keyset entry of `TINK_FIELDS_CONFIG` as `fields.py`'s `KeysetConfig`
reads it: the keyset file path (the empty string models an absent or NULL
path), whether a master key AEAD is configured, and the cleartext flag. -/
structure RawKeysetConfig where
  path : String
  hasMasterKeyAead : Bool
  cleartext : Bool
deriving DecidableEq, Repr

/-- The `TINK_FIELDS_CONFIG` setting: keyset name to keyset configuration
(`none` models a missing setting). -/
abbrev TinkFieldsConfig := List (String × RawKeysetConfig)

/-- `KeysetConfig.validate` (fields.py lines 106-119), with the filesystem
passed in as the list of existing paths: an empty path, a path that does not
exist, and an encrypted keyset without a master key AEAD are each rejected
with `ImproperlyConfigured`. -/
def KeysetConfig.validate (existingPaths : List String)
    (cfg : RawKeysetConfig) : Except String Unit :=
  if cfg.path = "" then
    .error "Keyset path cannot be None or empty."
  else if !(existingPaths.contains cfg.path) then
    .error "Keyset does not exist."
  else if !cfg.cleartext && !cfg.hasMasterKeyAead then
    .error "Encrypted keysets must specify master_key_aead."
  else
    .ok ()

/-- `KeysetManager._get_config` (fields.py lines 158-170): `none` models a
missing `TINK_FIELDS_CONFIG` attribute. -/
def KeysetManager.getConfig (config : Option TinkFieldsConfig) :
    Except String TinkFieldsConfig :=
  match config with
  | none => .error "Could not find TINK_FIELDS_CONFIG attribute in settings."
  | some c => .ok c

/-- `KeysetManager._validate_config` (fields.py lines 145-156), the only
configuration check run by `KeysetManager.__init__` and hence by
`EncryptedField.__init__` (fields.py lines 258-281) at field setup time: the
setting must exist (`_get_config`, whose missing-setting failure is inlined
here) and contain the keyset name.  The keyset's own `KeysetConfig` is not
constructed here, so path and master-key validation is not performed at this
point. -/
def KeysetManager.validateConfig (config : Option TinkFieldsConfig)
    (name : String) : Except String Unit :=
  match config with
  | none => .error "Could not find TINK_FIELDS_CONFIG attribute in settings."
  | some c =>
      if c.any (fun q => q.1 == name) then .ok ()
      else .error "Could not find configuration for keyset in TINK_FIELDS_CONFIG."

/-- The configuration work `EncryptedField.__init__` performs: constructing
the `KeysetManager`, whose constructor runs `_validate_config`. -/
def EncryptedField.initConfigCheck (config : Option TinkFieldsConfig)
    (name : String) : Except String Unit :=
  KeysetManager.validateConfig config name

/-- `KeysetManager._get_tink_keyset_handle` (fields.py lines 172-208), run on
first primitive access (first encrypt/decrypt): re-check the setting
(`_get_config` inlined) and the keyset name, construct `KeysetConfig` (whose
`__post_init__` validates path existence and the master-key requirement),
then read the handle from the file.  Reading the file is external I/O; the
validated configuration stands in for the handle it yields, and the handle
cache keyed on the validated configuration is behaviourally transparent
here. -/
def KeysetManager.getTinkKeysetHandle (existingPaths : List String)
    (config : Option TinkFieldsConfig) (name : String) :
    Except String RawKeysetConfig :=
  match config with
  | none => .error "Could not find TINK_FIELDS_CONFIG attribute in settings."
  | some c =>
      match (c.find? (fun q => q.1 == name)).map (fun q => q.2) with
      | none => .error "Could not find configuration for keyset in TINK_FIELDS_CONFIG."
      | some cfg =>
          match KeysetConfig.validate existingPaths cfg with
          | .error e => .error e
          | .ok _ => .ok cfg

/-- Well-formedness of the key table, as the schema and `crypto_format`
guarantee for reachable stores: key ids are unique (primary-key column), and
a non-empty persisted routing identifier determines its key, since
TINK/LEGACY/CRUNCHY identifiers embed the key id and only RAW keys share the
empty identifier. -/
def DB.wf (db : DB) : Prop :=
  ∀ k1 ∈ db.keys, ∀ k2 ∈ db.keys,
    (k1.id = k2.id → k1 = k2) ∧
    (k1.outputPrefix = k2.outputPrefix → k1.outputPrefix ≠ [] → k1 = k2)

/-- The index invariant: every cached entry is the projection of a key row of
the store and is grouped under that key's routing identifier.  The cache is
only ever filled through `_add_key_to_cache` from fetched rows, which
maintains this. -/
def cacheFromDb (c : Cache) (db : DB) : Prop :=
  ∀ q ∈ c, ∀ e ∈ q.2, ∃ k ∈ db.keys, e = k.entry ∧ q.1 = k.outputPrefix

/-- An AEAD key template, concretely `aead_key_templates.AES256_GCM` as the
model reads it. -/
def tplTink : KeyTemplate :=
  ⟨"type.googleapis.com/google.crypto.tink.AesGcmKey", .tink⟩

/-- Concrete fixture: key id 1 of keyset 1, enabled, TINK prefix. -/
def keyOne : Key := ⟨1, 1, "aesgcm", [9], .enabled, .tink, [1, 0, 0, 0, 1]⟩

/-- Concrete fixture: key id 2 of keyset 1, enabled, TINK prefix. -/
def keyTwo : Key := ⟨2, 1, "aesgcm", [8], .enabled, .tink, [1, 0, 0, 0, 2]⟩

/-- Concrete fixture: key id 2 of keyset 1, disabled, TINK prefix. -/
def keyTwoDisabled : Key :=
  ⟨2, 1, "aesgcm", [8], .disabled, .tink, [1, 0, 0, 0, 2]⟩

/-- Store with keyset 1 holding the single enabled key 1, persisted primary
key 1. -/
def dbOneKey : DB := ⟨[⟨1, "aead", some 1⟩], [keyOne], 2, 2⟩

/-- Store after another process rotated keyset 1's primary from key 1 to key
2: the persisted row records primary 2. -/
def dbRotated : DB := ⟨[⟨1, "aead", some 2⟩], [keyOne, keyTwo], 2, 3⟩

/-- Store with keyset 1 holding enabled key 1 (the persisted primary) and
disabled key 2. -/
def dbWithDisabled : DB := ⟨[⟨1, "aead", some 1⟩], [keyOne, keyTwoDisabled], 2, 3⟩

/-- A keyset instance for keyset 1 whose in-memory `primary_key_id` is 1 (as
loaded before any rotation elsewhere). -/
def ksAead : KeysetInstance := ⟨1, "aead", some 1⟩

/-- A toy raw deterministic primitive for key `i`: tags the plaintext and
associated data with the key index, so ciphertexts under different keys
differ. -/
def rawDet (i : Nat) : DeterministicAead :=
  ⟨fun m aad => i :: (m ++ aad), fun cipher _ => some (cipher.drop 1)⟩

/-- Handle key 1 (enabled, TINK prefix, deterministic capability). -/
def dkOne : DetKey := ⟨1, .tink, .enabled, rawDet 1⟩

/-- Handle key 2 (enabled, TINK prefix, deterministic capability). -/
def dkTwo : DetKey := ⟨2, .tink, .enabled, rawDet 2⟩

/-- Deterministic keyset handle before rotation: primary is key 1. -/
def handlePrimaryOne : DetKeysetHandle := ⟨[dkOne, dkTwo], 1⟩

/-- Deterministic keyset handle after rotation: primary is key 2. -/
def handlePrimaryTwo : DetKeysetHandle := ⟨[dkOne, dkTwo], 2⟩

/-- The identity codec for a field whose values are already byte strings
(the `EncryptedBinaryField` shape: `_to_python_prepare` is the identity). -/
def fcBytes : FieldCodec Bytes := ⟨some, some⟩

/-- A toy AEAD used to instantiate witnesses: reverses the plaintext. -/
def aeadReverse : Aead :=
  ⟨fun m _ => m.reverse, fun cipher _ => some cipher.reverse⟩

/-- A keyset configuration whose path does not exist on the (empty)
filesystem. -/
def cfgMissingPath : RawKeysetConfig := ⟨"/nonexistent/keyset.json", false, true⟩

/-- A `TINK_FIELDS_CONFIG` holding only the default keyset, configured with
the missing path. -/
def configMissingPath : TinkFieldsConfig := [("default", cfgMissingPath)]

theorem cacheGet_cacheAppend_self (c : Cache) (p : Bytes) (e : Entry) :
    cacheGet (cacheAppend c p e) p = cacheGet c p ++ [e] := by
  induction c with
  | nil => simp [cacheAppend, cacheGet]
  | cons q c ih =>
      by_cases h : q.1 = p
      · simp [cacheAppend, cacheGet, h]
      · simp [cacheAppend, cacheGet, h, ih]

theorem cacheGet_cacheAppend_other (c : Cache) (p q : Bytes) (e : Entry)
    (h : q ≠ p) : cacheGet (cacheAppend c p e) q = cacheGet c q := by
  induction c with
  | nil =>
      simp only [cacheAppend, cacheGet]
      rw [if_neg (fun hh => h hh.symm)]
  | cons r c ih =>
      by_cases hr : r.1 = p
      · have hrq : ¬ r.1 = q := by rw [hr]; exact fun hh => h hh.symm
        simp only [cacheAppend, if_pos hr, cacheGet]
        rw [if_neg (by rw [← hr] at *; exact hrq), if_neg hrq]
      · simp only [cacheAppend, if_neg hr, cacheGet]
        by_cases hq : r.1 = q
        · rw [if_pos hq, if_pos hq]
        · rw [if_neg hq, if_neg hq, ih]

theorem mem_cacheGet (c : Cache) (p : Bytes) (e : Entry)
    (h : e ∈ cacheGet c p) : ∃ q ∈ c, q.1 = p ∧ e ∈ q.2 := by
  induction c with
  | nil => simp [cacheGet] at h
  | cons r c ih =>
      by_cases hr : r.1 = p
      · exact ⟨r, by simp, hr, by simpa [cacheGet, hr] using h⟩
      · obtain ⟨q, hq, hq1, hq2⟩ := ih (by simpa [cacheGet, hr] using h)
        exact ⟨q, by simp [hq], hq1, hq2⟩

theorem keyId_mem_allCachedKeyIds (c : Cache) (q : Bytes × List Entry)
    (e : Entry) (hq : q ∈ c) (he : e ∈ q.2) :
    e.keyId ∈ allCachedKeyIds c := by
  induction c with
  | nil => simp at hq
  | cons r c ih =>
      rcases List.mem_cons.mp hq with h | h
      · subst h
        exact List.mem_append_left _ (List.mem_map_of_mem _ he)
      · exact List.mem_append_right _ (ih h)

theorem mem_allCachedKeyIds (c : Cache) (i : Nat)
    (h : i ∈ allCachedKeyIds c) : ∃ q ∈ c, ∃ e ∈ q.2, e.keyId = i := by
  induction c with
  | nil => simp [allCachedKeyIds] at h
  | cons r c ih =>
      rcases List.mem_append.mp h with h | h
      · obtain ⟨e, he, hei⟩ := List.mem_map.mp h
        exact ⟨r, by simp, e, he, hei⟩
      · obtain ⟨q, hq, e, he, hei⟩ := ih h
        exact ⟨q, by simp [hq], e, he, hei⟩

theorem allCachedKeyIds_cacheAppend_mono (c : Cache) (p : Bytes) (e : Entry)
    (i : Nat) (h : i ∈ allCachedKeyIds c) :
    i ∈ allCachedKeyIds (cacheAppend c p e) := by
  induction c with
  | nil => simp [allCachedKeyIds] at h
  | cons r c ih =>
      by_cases hr : r.1 = p
      · simp only [cacheAppend, if_pos hr, allCachedKeyIds]
        rcases List.mem_append.mp h with h | h
        · exact List.mem_append_left _
            (by rw [List.map_append]; exact List.mem_append_left _ h)
        · exact List.mem_append_right _ h
      · simp only [cacheAppend, if_neg hr, allCachedKeyIds]
        rcases List.mem_append.mp h with h | h
        · exact List.mem_append_left _ h
        · exact List.mem_append_right _ (ih h)

theorem keyId_mem_cacheAppend (c : Cache) (p : Bytes) (e : Entry) :
    e.keyId ∈ allCachedKeyIds (cacheAppend c p e) := by
  induction c with
  | nil => simp [cacheAppend, allCachedKeyIds]
  | cons r c ih =>
      by_cases hr : r.1 = p
      · simp only [cacheAppend, if_pos hr, allCachedKeyIds]
        exact List.mem_append_left _
          (by rw [List.map_append]; exact List.mem_append_right _ (by simp))
      · simp only [cacheAppend, if_neg hr, allCachedKeyIds]
        exact List.mem_append_right _ ih

theorem entryById_mem (c : Cache) (p : Bytes) (i : Nat) (e : Entry)
    (h : entryById c p i = some e) : e ∈ cacheGet c p := by
  unfold entryById at h
  split at h
  · exact List.mem_of_mem_head? (by simp [h])
  · exact List.mem_of_find?_eq_some h

theorem entryById_some_eq_entry (db : DB) (c : Cache) (k : Key) (e : Entry)
    (hwf : DB.wf db) (hc : cacheFromDb c db) (hk : k ∈ db.keys)
    (h : entryById c k.outputPrefix k.id = some e) : e = k.entry := by
  obtain ⟨q, hq, hq1, he⟩ := mem_cacheGet _ _ _ (entryById_mem _ _ _ _ h)
  obtain ⟨k2, hk2, hek2, hqk2⟩ := hc q hq e he
  have hpfx : k2.outputPrefix = k.outputPrefix := by rw [← hqk2, hq1]
  unfold entryById at h
  split at h
  next hcond =>
    have hne : k.outputPrefix ≠ [] := by
      simp only [Bool.and_eq_true, decide_eq_true_eq] at hcond
      intro hnil
      rw [hnil] at hcond
      simp at hcond
    have : k2 = k := ((hwf k2 hk2 k hk).2) hpfx (by rw [hpfx]; exact hne)
    rw [hek2, this]
  next =>
    have hpred := List.find?_some h
    have hid : k2.id = k.id := by
      have : e.keyId = k.id := by simpa using hpred
      rw [← this, hek2]
      rfl
    have : k2 = k := ((hwf k2 hk2 k hk).1) hid
    rw [hek2, this]

theorem cacheFromDb_cacheAppend (db : DB) (k : Key) (hk : k ∈ db.keys) :
    ∀ c : Cache, cacheFromDb c db →
      cacheFromDb (cacheAppend c k.outputPrefix k.entry) db := by
  intro c
  induction c with
  | nil =>
      intro _ q hq e he
      simp [cacheAppend] at hq
      subst hq
      simp at he
      subst he
      exact ⟨k, hk, rfl, rfl⟩
  | cons r c ih =>
      intro hc q hq e he
      by_cases hr : r.1 = k.outputPrefix
      · simp only [cacheAppend, if_pos hr] at hq
        rcases List.mem_cons.mp hq with hq | hq
        · subst hq
          rcases List.mem_append.mp he with he | he
          · obtain ⟨k2, hk2, hek2, hqk2⟩ := hc r (by simp) e he
            exact ⟨k2, hk2, hek2, hqk2⟩
          · simp at he
            subst he
            exact ⟨k, hk, rfl, hr⟩
        · exact hc q (List.mem_cons_of_mem _ hq) e he
      · simp only [cacheAppend, if_neg hr] at hq
        rcases List.mem_cons.mp hq with hq | hq
        · subst hq
          exact hc q (by simp) e he
        · exact ih (fun q2 hq2 => hc q2 (List.mem_cons_of_mem _ hq2)) q hq e he

theorem addKeyToCache_cacheFromDb (db : DB) (c : Cache) (k : Key)
    (hc : cacheFromDb c db) (hk : k ∈ db.keys) :
    cacheFromDb (addKeyToCache c k) db := by
  unfold addKeyToCache
  split
  · exact hc
  · exact cacheFromDb_cacheAppend db k hk c hc

theorem addKeyToCache_ids_mono (c : Cache) (k : Key) (i : Nat)
    (h : i ∈ allCachedKeyIds c) : i ∈ allCachedKeyIds (addKeyToCache c k) := by
  unfold addKeyToCache
  split
  · exact h
  · exact allCachedKeyIds_cacheAppend_mono _ _ _ _ h

theorem addKeyToCache_id_mem (db : DB) (c : Cache) (k : Key)
    (hwf : DB.wf db) (hc : cacheFromDb c db) (hk : k ∈ db.keys) :
    k.id ∈ allCachedKeyIds (addKeyToCache c k) := by
  unfold addKeyToCache
  split
  next h =>
    obtain ⟨e, he⟩ := Option.isSome_iff_exists.mp h
    have hee : e = k.entry := entryById_some_eq_entry db c k e hwf hc hk he
    obtain ⟨q, hq, _, he2⟩ := mem_cacheGet _ _ _ (entryById_mem _ _ _ _ he)
    have := keyId_mem_allCachedKeyIds c q e hq he2
    rw [hee] at this
    exact this
  next =>
    have := keyId_mem_cacheAppend c k.outputPrefix k.entry
    exact this

theorem foldl_addKeyToCache_props (db : DB) (hwf : DB.wf db) :
    ∀ (ks : List Key) (c : Cache), (∀ k ∈ ks, k ∈ db.keys) → cacheFromDb c db →
      cacheFromDb (ks.foldl addKeyToCache c) db ∧
      (∀ i ∈ allCachedKeyIds c, i ∈ allCachedKeyIds (ks.foldl addKeyToCache c)) ∧
      (∀ k ∈ ks, k.id ∈ allCachedKeyIds (ks.foldl addKeyToCache c)) := by
  intro ks
  induction ks with
  | nil =>
      intro c _ hc
      exact ⟨hc, fun i hi => hi, fun k hk => by simp at hk⟩
  | cons k ks ih =>
      intro c hks hc
      have hk : k ∈ db.keys := hks k (by simp)
      have hc2 : cacheFromDb (addKeyToCache c k) db :=
        addKeyToCache_cacheFromDb db c k hc hk
      obtain ⟨h1, h2, h3⟩ :=
        ih (addKeyToCache c k) (fun k2 h => hks k2 (List.mem_cons_of_mem _ h)) hc2
      refine ⟨h1, fun i hi => h2 i (addKeyToCache_ids_mono c k i hi), ?_⟩
      intro k2 hk2
      rcases List.mem_cons.mp hk2 with hk2 | hk2
      · subst hk2
        exact h2 k2.id (addKeyToCache_id_mem db c k2 hwf hc hk)
      · exact h3 k2 hk2

theorem cacheGet_addKeyToCache_ne_nil (c : Cache) (k : Key) (p : Bytes)
    (h : cacheGet c p ≠ []) : cacheGet (addKeyToCache c k) p ≠ [] := by
  unfold addKeyToCache
  split
  · exact h
  · by_cases hp : k.outputPrefix = p
    · subst hp
      rw [cacheGet_cacheAppend_self]
      simp
    · rw [cacheGet_cacheAppend_other _ _ _ _ (Ne.symm hp)]
      exact h

theorem foldl_cacheGet_ne_nil (p : Bytes) :
    ∀ (ks : List Key) (c : Cache), cacheGet c p ≠ [] →
      cacheGet (ks.foldl addKeyToCache c) p ≠ [] := by
  intro ks
  induction ks with
  | nil => intro c h; exact h
  | cons k ks ih =>
      intro c h
      exact ih (addKeyToCache c k) (cacheGet_addKeyToCache_ne_nil c k p h)

theorem cacheGet_addKeyToCache_self_ne_nil (c : Cache) (k : Key) :
    cacheGet (addKeyToCache c k) k.outputPrefix ≠ [] := by
  unfold addKeyToCache
  split
  next h =>
    obtain ⟨e, he⟩ := Option.isSome_iff_exists.mp h
    exact List.ne_nil_of_mem (entryById_mem _ _ _ _ he)
  next =>
    rw [cacheGet_cacheAppend_self]
    simp

theorem foldl_cacheGet_nil_iff (p : Bytes) :
    ∀ (ks : List Key), (∀ k ∈ ks, k.outputPrefix = p) → ∀ c : Cache,
      (cacheGet (ks.foldl addKeyToCache c) p = [] ↔
        (cacheGet c p = [] ∧ ks = [])) := by
  intro ks
  induction ks with
  | nil => intro _ c; simp
  | cons k ks ih =>
      intro hks c
      have hkp : k.outputPrefix = p := hks k (by simp)
      have hstep : cacheGet (addKeyToCache c k) p ≠ [] := by
        rw [← hkp]
        exact cacheGet_addKeyToCache_self_ne_nil c k
      constructor
      · intro hnil
        exact absurd hnil (foldl_cacheGet_ne_nil p ks (addKeyToCache c k) hstep)
      · rintro ⟨-, h⟩
        cases h

theorem superPrimitiveFromIdentifier_error_iff (c : Cache) (p : Bytes) :
    superPrimitiveFromIdentifier c p = .error .keyNotFound ↔
      cacheGet c p = [] := by
  unfold superPrimitiveFromIdentifier
  rcases h : cacheGet c p with - | ⟨e, es⟩ <;> simp

theorem fetchKey_some (db : DB) (kid : Nat) (k : Key)
    (h : fetchKey db kid = some k) : k ∈ db.keys ∧ k.id = kid := by
  refine ⟨List.mem_of_find?_eq_some h, ?_⟩
  have := List.find?_some h
  simpa using this

/-- Claim C1: the claim states that after `Keyset.create` returns, exactly one
Key row of the keyset is the primary key, and that this holds from the moment
`create` returns.  The code violates it: `create` saves the `Keyset` row
before assigning `instance.primary_key` and never saves it again, so at the
moment `create` returns the persisted keyset row references no primary key
at all (count 0, not 1); only the returned in-memory instance records the
generated key (id 1) as primary. -/
theorem c1_no_persisted_primary_after_create :
    (Keyset.create DB.empty "aead" tplTink [7]).map
      (fun r => (persistedPrimaryCount r.2 r.1.rowId, r.1.primaryKeyId))
      = some (0, some 1) := by
  rfl

/-- Claim C2: the claim states that `create` atomically persists the Keyset
row together with its primary-key reference, so the persisted keyset never
exists without a persisted primary key.  The code violates it: after the
transaction of `Keyset.create` commits, the keyset row is persisted with a
NULL `primary_key_id` (the `primary_key` assignment happens after the row's
only save). -/
theorem c2_keyset_persisted_without_primary_reference :
    (Keyset.create DB.empty "aead" tplTink [7]).map (fun r => r.2.keysets)
      = some [⟨1, "aead", none⟩] := by
  rfl

/-- Claim C3 (counterexample): the claim states that the primary-entry lookup
re-resolves which key id is primary with a fresh storage read on every call.
It does not: `primary` resolves the keyset instance's in-memory
`primary_key_id` attribute, so in a state where the persisted keyset row
already records key 2 as primary (as after a rotation by another process),
the lookup still serves key 1. -/
theorem c3_primary_ignores_storage_rotation :
    (primaryEntry [] dbRotated ksAead).map (fun r => r.1.keyId) = some 1 ∧
    persistedPrimaryId dbRotated 1 = some 2 := by
  exact ⟨rfl, rfl⟩

/-- Claim C3 (amended): the index keeps no long-lived cached primary entry:
each `primary` call re-resolves the entry from the keyset instance's current
`primary_key_id`, so immediately after `set_primary_key` promotes key `kid`
through a keyset instance, the next `primary` call on that instance returns
the promoted key's entry (from the cache when indexed, otherwise from
storage). -/
theorem c3_primary_reflects_instance_promotion (db : DB) (c : Cache)
    (ks : KeysetInstance) (kid : Nat) (k : Key)
    (hwf : DB.wf db) (hc : cacheFromDb c db) (hk : fetchKey db kid = some k) :
    (primaryEntry c (Keyset.setPrimaryKey db ks kid).2
        (Keyset.setPrimaryKey db ks kid).1).map (fun r => r.1) = some k.entry := by
  obtain ⟨hkmem, -⟩ := fetchKey_some db kid k hk
  have hfetch : (Keyset.setPrimaryKey db ks kid).1.primaryKeyId.bind
      (fetchKey (Keyset.setPrimaryKey db ks kid).2) = some k := by
    show fetchKey db kid = some k
    exact hk
  have hred : primaryEntry c (Keyset.setPrimaryKey db ks kid).2
      (Keyset.setPrimaryKey db ks kid).1 =
      match entryById c k.outputPrefix k.id with
      | some e => some (e, c)
      | none => some (k.entry, addKeyToCache c k) := by
    unfold primaryEntry
    rw [hfetch]
  rw [hred]
  rcases h2 : entryById c k.outputPrefix k.id with - | e
  · rfl
  · have he := entryById_some_eq_entry db c k e hwf hc hkmem h2
    subst he
    rfl

/-- Witness for `c3_primary_reflects_instance_promotion` at the concrete
rotated store. -/
theorem c3_primary_reflects_instance_promotion_witness :
    DB.wf dbRotated ∧ cacheFromDb [] dbRotated ∧
    fetchKey dbRotated 2 = some keyTwo ∧
    (primaryEntry [] (Keyset.setPrimaryKey dbRotated ksAead 2).2
        (Keyset.setPrimaryKey dbRotated ksAead 2).1).map (fun r => r.1)
      = some keyTwo.entry := by
  refine ⟨by unfold DB.wf; decide, ?_, rfl, ?_⟩
  · intro q hq
    exact absurd hq (List.not_mem_nil q)
  · exact c3_primary_reflects_instance_promotion dbRotated [] ksAead 2 keyTwo
      (by unfold DB.wf; decide) (fun q hq => absurd hq (List.not_mem_nil q)) rfl

/-- Claim C4: encrypt-then-decrypt round trip at the field interface.  Under
the AEAD round-trip contract of the external primitive (`hdec`) and the
faithfulness of the host field's value marshalling on the value (`hprep`,
`htp`), `from_db_value` applied to the output of `get_db_prep_save` yields
the non-None value back. -/
theorem c4_field_round_trip {α : Type} (fc : FieldCodec α) (a : Aead)
    (aad : Bytes) (v : α) (w : Bytes)
    (hprep : fc.superPrep v = some w)
    (hdec : a.decrypt (a.encrypt w aad) aad = some w)
    (htp : fc.toPython w = some v) :
    EncryptedField.fromDbValue fc a aad
      (EncryptedField.getDbPrepSave fc a aad (some v)) = some v := by
  unfold EncryptedField.getDbPrepSave
  simp only [Option.some_bind, hprep]
  show (a.decrypt (a.encrypt w aad) aad).bind fc.toPython = some v
  rw [hdec, Option.some_bind, htp]

/-- Witness for `c4_field_round_trip` on a concrete byte value and toy
AEAD. -/
theorem c4_field_round_trip_witness :
    fcBytes.superPrep [1, 2] = some [1, 2] ∧
    aeadReverse.decrypt (aeadReverse.encrypt [1, 2] [0]) [0] = some [1, 2] ∧
    fcBytes.toPython [1, 2] = some [1, 2] ∧
    EncryptedField.fromDbValue fcBytes aeadReverse [0]
      (EncryptedField.getDbPrepSave fcBytes aeadReverse [0] (some [1, 2]))
      = some [1, 2] :=
  ⟨rfl, by decide, rfl,
    c4_field_round_trip fcBytes aeadReverse [0] [1, 2] [1, 2] rfl (by decide) rfl⟩

/-- Claim C5: the claim states that the equality-search expansion produces
one candidate ciphertext for every enabled deterministic key, so rows
written under the old and the new primary both match after rotation.  The
code violates it: the `exact` lookup encrypts the prepared value once with
the wrapped primitive (the current primary key only).  Concretely, with both
keys enabled, a row stored while key 1 was primary and the single comparison
ciphertext computed after rotating primary to key 2 differ, so the old row
does not satisfy the exact-match query. -/
theorem c5_single_candidate_misses_rotated_row :
    DeterministicEncryptedField.getDbPrepSave fcBytes handlePrimaryOne []
        (some [42]) = some [1, 0, 0, 0, 1, 1, 42] ∧
    deterministicExactPrepLookup fcBytes handlePrimaryTwo [] (some [42])
      = some [1, 0, 0, 0, 2, 2, 42] ∧
    (some [1, 0, 0, 0, 1, 1, 42] : Option Bytes) ≠ some [1, 0, 0, 0, 2, 2, 42] ∧
    dkOne.status = KeyStatus.enabled ∧ dkTwo.status = KeyStatus.enabled := by
  exact ⟨rfl, rfl, by decide, rfl, rfl⟩

/-- Claim C7 (counterexample): the claim states that promoting a disabled or
destroyed key fails with `InvalidStateError` and leaves the primary key
unchanged.  The code has no status check: promoting the disabled key 2
succeeds and both the instance and the persisted row now record key 2 as
primary. -/
theorem c7_disabled_key_promotion_succeeds :
    (Keyset.setPrimaryKey dbWithDisabled ksAead 2).1.primaryKeyId = some 2 ∧
    persistedPrimaryId (Keyset.setPrimaryKey dbWithDisabled ksAead 2).2 1
      = some 2 ∧
    (fetchKey dbWithDisabled 2).map (fun k => k.status)
      = some KeyStatus.disabled ∧
    persistedPrimaryId dbWithDisabled 1 = some 1 := by
  exact ⟨rfl, rfl, rfl, rfl⟩

/-- Claim C7 (amended): `set_primary_key` promotes the given key id
unconditionally — whatever the key's lifecycle status, it sets the
instance's `primary_key_id` to that id and persists it on the keyset's
row. -/
theorem c7_set_primary_key_unconditional (db : DB) (ks : KeysetInstance)
    (kid : Nat) :
    (Keyset.setPrimaryKey db ks kid).1.primaryKeyId = some kid ∧
    ((Keyset.setPrimaryKey db ks kid).2.keysets.all
      (fun r => !(r.id == ks.rowId) || r.primaryKeyId == some kid)) = true := by
  refine ⟨rfl, ?_⟩
  rw [List.all_eq_true]
  intro r hr
  simp only [Keyset.setPrimaryKey] at hr
  obtain ⟨r0, hr0, hmap⟩ := List.mem_map.mp hr
  subst hmap
  by_cases h : r0.id = ks.rowId
  · simp [h]
  · simp [h]

/-- Claim C10: a None value bypasses encryption entirely at the public
interface of both field kinds: `get_db_prep_save` returns None when the
prepared value is None, and `from_db_value` returns None on a None database
value without invoking decryption. -/
theorem c10_none_bypass {α : Type} (fc : FieldCodec α) (a : Aead)
    (h : DetKeysetHandle) (aad : Bytes) (value : Option α)
    (hv : value.bind fc.superPrep = none) :
    EncryptedField.getDbPrepSave fc a aad value = none ∧
    EncryptedField.fromDbValue fc a aad none = none ∧
    DeterministicEncryptedField.getDbPrepSave fc h aad value = none ∧
    DeterministicEncryptedField.fromDbValue fc h aad none = none := by
  refine ⟨?_, rfl, ?_, rfl⟩
  · unfold EncryptedField.getDbPrepSave
    rw [hv]
  · unfold DeterministicEncryptedField.getDbPrepSave
    rw [hv]

/-- Witness for `c10_none_bypass` at the None value. -/
theorem c10_none_bypass_witness :
    (none : Option Bytes).bind fcBytes.superPrep = none ∧
    EncryptedField.getDbPrepSave fcBytes aeadReverse [] none = none ∧
    EncryptedField.fromDbValue fcBytes aeadReverse [] none = none ∧
    DeterministicEncryptedField.getDbPrepSave fcBytes handlePrimaryOne [] none
      = none ∧
    DeterministicEncryptedField.fromDbValue fcBytes handlePrimaryOne [] none
      = none := by
  refine ⟨rfl, ?_⟩
  have := c10_none_bypass fcBytes aeadReverse handlePrimaryOne [] none rfl
  exact this

/-- Claim C6: on a lookup that misses the fast path (cache miss, or the
empty RAW identifier — the only identifier that can admit multiple
candidates), the index queries storage for exactly the keys of this keyset
whose persisted routing identifier equals the requested identifier and whose
key id is not already cached (the filter in the statement is that query),
inserts them into the cache, retries the lookup, and fails with
`KeyNotFoundError` exactly when no candidate exists after the storage
query. -/
theorem c6_lookup_miss_path (c : Cache) (db : DB) (ksId : Nat) (p : Bytes)
    (hwf : DB.wf db) (hc : cacheFromDb c db)
    (hmiss : (p.length > 0 && cacheContains c p) = false) :
    ((db.keys.filter (fun k => k.keysetId == ksId && k.outputPrefix == p &&
        !((allCachedKeyIds c).contains k.id))).all
      (fun k =>
        (allCachedKeyIds (primitiveFromIdentifier c db ksId p).2).contains k.id)
      = true) ∧
    ((primitiveFromIdentifier c db ksId p).1
        = Except.error TinkError.keyNotFound ↔
      (cacheGet c p = [] ∧
        db.keys.filter (fun k => k.keysetId == ksId && k.outputPrefix == p &&
          !((allCachedKeyIds c).contains k.id)) = [])) := by
  have heq : primitiveFromIdentifier c db ksId p =
      (superPrimitiveFromIdentifier
        ((db.keys.filter (fun k => k.keysetId == ksId && k.outputPrefix == p &&
          !((allCachedKeyIds c).contains k.id))).foldl addKeyToCache c) p,
       (db.keys.filter (fun k => k.keysetId == ksId && k.outputPrefix == p &&
          !((allCachedKeyIds c).contains k.id))).foldl addKeyToCache c) := by
    unfold primitiveFromIdentifier
    rw [hmiss]
    rfl
  obtain ⟨h1, h2, h3⟩ := foldl_addKeyToCache_props db hwf
    (db.keys.filter (fun k => k.keysetId == ksId && k.outputPrefix == p &&
      !((allCachedKeyIds c).contains k.id))) c
    (fun k2 hk2 => (List.mem_filter.mp hk2).1) hc
  have hpfx : ∀ k ∈ db.keys.filter (fun k =>
      k.keysetId == ksId && k.outputPrefix == p &&
        !((allCachedKeyIds c).contains k.id)), k.outputPrefix = p := by
    intro k hk
    have hp := (List.mem_filter.mp hk).2
    simp only [Bool.and_eq_true, beq_iff_eq] at hp
    exact hp.1.2
  constructor
  · rw [heq]
    rw [List.all_eq_true]
    intro k hk
    simpa using h3 k hk
  · rw [heq]
    rw [superPrimitiveFromIdentifier_error_iff]
    exact foldl_cacheGet_nil_iff p _ hpfx c

/-- Witness for `c6_lookup_miss_path` at a concrete one-key store and an
empty cache. -/
theorem c6_lookup_miss_path_witness :
    DB.wf dbOneKey ∧
    (([1, 0, 0, 0, 1] : Bytes).length > 0 &&
        cacheContains [] [1, 0, 0, 0, 1]) = false ∧
    ((dbOneKey.keys.filter (fun k =>
        k.keysetId == 1 && k.outputPrefix == [1, 0, 0, 0, 1] &&
          !((allCachedKeyIds []).contains k.id))).all
      (fun k =>
        (allCachedKeyIds
          (primitiveFromIdentifier [] dbOneKey 1 [1, 0, 0, 0, 1]).2).contains
          k.id) = true) ∧
    ((primitiveFromIdentifier [] dbOneKey 1 [1, 0, 0, 0, 1]).1
        = Except.error TinkError.keyNotFound ↔
      (cacheGet [] [1, 0, 0, 0, 1] = [] ∧
        dbOneKey.keys.filter (fun k =>
          k.keysetId == 1 && k.outputPrefix == [1, 0, 0, 0, 1] &&
            !((allCachedKeyIds []).contains k.id)) = [])) := by
  refine ⟨by unfold DB.wf; decide, by decide, ?_⟩
  exact c6_lookup_miss_path [] dbOneKey 1 [1, 0, 0, 0, 1]
    (by unfold DB.wf; decide) (fun q hq => absurd hq (List.not_mem_nil q))
    (by decide)

/-- Claim C8 (counterexample): the claim states that every entry returned by
the all-entries operation corresponds to a key whose status is enabled.  The
storage query in `all` has no status filter: on a keyset holding an enabled
key and a disabled key, the returned entry lists include the disabled key's
entry (and its id is indexed). -/
theorem c8_all_returns_disabled_entry :
    ((allEntries [] dbWithDisabled 1).1.any
      (fun es => es.any (fun e => e.status == KeyStatus.disabled))) = true ∧
    (allCachedKeyIds (allEntries [] dbWithDisabled 1).2).contains 2 = true := by
  exact ⟨rfl, rfl⟩

/-- Claim C8 (amended): `all` indexes every key of the keyset whose id is
not already cached — enabled, disabled and destroyed alike (the storage
query excludes only cached key ids) — and the returned candidate lists
contain the entry of every key of the keyset. -/
theorem c8_all_indexes_every_key (c : Cache) (db : DB) (ksId : Nat)
    (hwf : DB.wf db) (hc : cacheFromDb c db) :
    ((db.keys.filter (fun k => k.keysetId == ksId)).all
      (fun k => ((allEntries c db ksId).1).any (fun es => es.contains k.entry)))
      = true := by
  rw [List.all_eq_true]
  intro k hk
  obtain ⟨hkmem, hkks⟩ := List.mem_filter.mp hk
  obtain ⟨h1, h2, h3⟩ := foldl_addKeyToCache_props db hwf
    (db.keys.filter (fun k =>
      k.keysetId == ksId && !((allCachedKeyIds c).contains k.id))) c
    (fun k2 hk2 => (List.mem_filter.mp hk2).1) hc
  have hid : k.id ∈ allCachedKeyIds
      ((db.keys.filter (fun k =>
        k.keysetId == ksId && !((allCachedKeyIds c).contains k.id))).foldl
        addKeyToCache c) := by
    by_cases hcached : k.id ∈ allCachedKeyIds c
    · exact h2 k.id hcached
    · apply h3 k
      rw [List.mem_filter]
      refine ⟨hkmem, ?_⟩
      simp only [Bool.and_eq_true, hkks, Bool.not_eq_true', true_and]
      simpa using hcached
  obtain ⟨q, hq, e, he, hei⟩ := mem_allCachedKeyIds _ _ hid
  obtain ⟨k2, hk2mem, hek2, -⟩ := h1 q hq e he
  have hkk : k2 = k := (hwf k2 hk2mem k hkmem).1 (by rw [← hei, hek2]; rfl)
  have hek : e = k.entry := by rw [hek2, hkk]
  rw [List.any_eq_true]
  refine ⟨q.2, ?_, ?_⟩
  · show q.2 ∈ superAll ((db.keys.filter (fun k =>
      k.keysetId == ksId && !((allCachedKeyIds c).contains k.id))).foldl
        addKeyToCache c)
    exact List.mem_map_of_mem _ hq
  · rw [← hek]
    simpa using he

/-- Witness for `c8_all_indexes_every_key` at the concrete store with an
enabled and a disabled key. -/
theorem c8_all_indexes_every_key_witness :
    DB.wf dbWithDisabled ∧
    ((dbWithDisabled.keys.filter (fun k => k.keysetId == 1)).all
      (fun k => ((allEntries [] dbWithDisabled 1).1).any
        (fun es => es.contains k.entry))) = true := by
  refine ⟨by unfold DB.wf; decide, ?_⟩
  exact c8_all_indexes_every_key [] dbWithDisabled 1
    (by unfold DB.wf; decide) (fun q hq => absurd hq (List.not_mem_nil q))

/-- Claim C9 (counterexample): the claim states that any configuration
validation failure (including a non-existent keyset file path) raises at
field setup time and is never deferred to the first encrypt or decrypt call.
Field setup only checks that the setting exists and contains the keyset
name: with a configured but non-existent path, constructing the field
succeeds, and the `ImproperlyConfigured` failure surfaces only on the first
keyset-handle access (the first encrypt/decrypt). -/
theorem c9_field_init_defers_path_validation :
    EncryptedField.initConfigCheck (some configMissingPath) "default"
      = .ok () ∧
    KeysetManager.getTinkKeysetHandle [] (some configMissingPath) "default"
      = .error "Keyset does not exist." := by
  exact ⟨rfl, rfl⟩

/-- Claim C9 (amended): field construction fails fast exactly on the checks
`KeysetManager.__init__` runs — a missing `TINK_FIELDS_CONFIG` or a keyset
name absent from it; when the name is present, construction succeeds even if
the keyset's own configuration is invalid, and that validation error (path
existence, master-key requirement) surfaces on the first keyset-handle
access instead. -/
theorem c9_init_checks_name_only (paths : List String) (c : TinkFieldsConfig)
    (name msg : String) (cfg : RawKeysetConfig)
    (hfind : (c.find? (fun q => q.1 == name)).map (fun q => q.2) = some cfg)
    (hbad : KeysetConfig.validate paths cfg = .error msg) :
    EncryptedField.initConfigCheck (some c) name = .ok () ∧
    KeysetManager.getTinkKeysetHandle paths (some c) name = .error msg := by
  obtain ⟨q, hq, hq2⟩ := Option.map_eq_some'.mp hfind
  have hmem := List.mem_of_find?_eq_some hq
  have hpred := List.find?_some hq
  constructor
  · have hany : c.any (fun q => q.1 == name) = true := by
      rw [List.any_eq_true]
      exact ⟨q, hmem, hpred⟩
    show (if c.any (fun q => q.1 == name) = true then (Except.ok () : Except String Unit)
      else .error "Could not find configuration for keyset in TINK_FIELDS_CONFIG.") = .ok ()
    rw [hany]
    rfl
  · show (match (c.find? (fun q => q.1 == name)).map (fun q => q.2) with
      | none => (Except.error "Could not find configuration for keyset in TINK_FIELDS_CONFIG." :
          Except String RawKeysetConfig)
      | some cfg =>
          match KeysetConfig.validate paths cfg with
          | .error e => .error e
          | .ok _ => .ok cfg) = .error msg
    rw [hfind]
    show (match KeysetConfig.validate paths cfg with
      | .error e => (Except.error e : Except String RawKeysetConfig)
      | .ok _ => .ok cfg) = .error msg
    rw [hbad]

/-- Witness for `c9_init_checks_name_only` at the concrete configuration
with a missing keyset file. -/
theorem c9_init_checks_name_only_witness :
    (configMissingPath.find? (fun q => q.1 == "default")).map (fun q => q.2)
      = some cfgMissingPath ∧
    KeysetConfig.validate [] cfgMissingPath
      = .error "Keyset does not exist." ∧
    EncryptedField.initConfigCheck (some configMissingPath) "default"
      = .ok () ∧
    KeysetManager.getTinkKeysetHandle [] (some configMissingPath) "default"
      = .error "Keyset does not exist." := by
  have h := c9_init_checks_name_only [] configMissingPath "default"
    "Keyset does not exist." cfgMissingPath rfl rfl
  exact ⟨rfl, rfl, h.1, h.2⟩
